import Mathlib

/- Verification of the extraction-and-reconciliation engine of the Beewax
   Summon Data Extractor (`Extractor.py`).

   The Python source is shallowly embedded: Python strings are `List Char`,
   Python dicts are association lists with insert-or-overwrite semantics
   (an existing key keeps its position, a new key is appended), and the one
   regular expression used by `extract_details`,

     \b<label>\s*[:\t]\s*([^\n\r<]{1,200}?)(?:\n|<|$)

   compiled with `re.IGNORECASE | re.MULTILINE`, is modelled by a
   specialised backtracking matcher that follows Python's preference
   order: leftmost start position, greedy `\s*` (longest first), the
   single character class `[:\t]`, lazy `{1,200}?` capture (shortest
   first), and ordered alternation for the terminator, where in MULTILINE
   mode `$` matches at end of input (the `\n` branch already covers the
   before-a-newline position).  The character classes `\s` and `\w`,
   case-insensitive comparison and `str.lower` are modelled over their
   ASCII ranges, which covers the ASCII-only labels and markers of the
   source.  `extract_details` receives the HTML-entity-decoded page text
   (`html.unescape` is applied at the call boundary in the source; text
   without entities is a fixed point of it). -/

namespace Extractor

/-- Python `\s` / `str.strip` / `str.split` whitespace (ASCII range). -/
def isPySpace (c : Char) : Bool :=
  c == ' ' || c == '\t' || c == '\n' || c == '\r' || c == '\x0b' || c == '\x0c'

/-- Python `\w` (ASCII range), used for the `\b` word boundary. -/
def isWordChar (c : Char) : Bool := c.isAlphanum || c == '_'

def lowerNat (c : Char) : Nat :=
  if 65 ≤ c.toNat ∧ c.toNat ≤ 90 then c.toNat + 32 else c.toNat

/-- Case-insensitive character comparison, modelling `re.IGNORECASE`. -/
def ciEq (a b : Char) : Bool := lowerNat a == lowerNat b

/-- Python `str.lower` (ASCII range). -/
def lowerChar (c : Char) : Char :=
  if 65 ≤ c.toNat ∧ c.toNat ≤ 90 then Char.ofNat (c.toNat + 32) else c

def pyLower (s : List Char) : List Char := s.map lowerChar

def lstrip (s : List Char) : List Char := s.dropWhile isPySpace

def rstrip (s : List Char) : List Char := (s.reverse.dropWhile isPySpace).reverse

/-- Python `str.strip()`. -/
def pyStrip (s : List Char) : List Char := rstrip (lstrip s)

def pySplitGo : Nat → List Char → List (List Char)
  | 0, _ => []
  | _ + 1, [] => []
  | fuel + 1, c :: rest =>
    if isPySpace c then pySplitGo fuel rest
    else (c :: rest.takeWhile (fun d => !isPySpace d)) ::
      pySplitGo fuel (rest.dropWhile (fun d => !isPySpace d))

/-- Python `str.split()` with no argument: maximal non-whitespace runs. -/
def pySplit (s : List Char) : List (List Char) := pySplitGo (s.length + 1) s

/-- `' '.join ws`. -/
def joinSpace : List (List Char) → List Char
  | [] => []
  | [w] => w
  | w :: ws => w ++ ' ' :: joinSpace ws

/-- Case-insensitive literal match of the label; returns the remainder. -/
def matchLabelCI : List Char → List Char → Option (List Char)
  | [], s => some s
  | _ :: _, [] => none
  | a :: ls, c :: cs => if ciEq a c then matchLabelCI ls cs else none

/-- The terminator `(?:\n|<|$)` of the extraction pattern.  `\n` and `<`
consume one character; `$` matches (zero-width) at end of input.  The
MULTILINE before-a-newline position for `$` is subsumed by the `\n`
branch, which the ordered alternation tries first. -/
def termAt : List Char → Option (List Char)
  | [] => some []
  | c :: rest => if c = '\n' ∨ c = '<' then some rest else none

/-- Lazy capture `([^\n\r<]{1,200}?)` followed by the terminator: take one
more allowed character, then prefer stopping (shortest match first). -/
def lazyCapGo : List Char → Nat → List Char → Option (List Char × List Char)
  | _, 0, _ => none
  | _, _ + 1, [] => none
  | acc, fuel + 1, c :: rest =>
    if c = '\n' ∨ c = '\r' ∨ c = '<' then none
    else
      match termAt rest with
      | some after => some (acc ++ [c], after)
      | none => lazyCapGo (acc ++ [c]) fuel rest

def lazyCap (s : List Char) : Option (List Char × List Char) := lazyCapGo [] 200 s

def firstSome {α β : Type} (f : α → Option β) : List α → Option β
  | [] => none
  | a :: rest =>
    match f a with
    | some b => some b
    | none => firstSome f rest

/-- All ways a greedy `\s*` can split the input, longest consumed first
(the backtracking preference of a greedy quantifier). -/
def wsSplits (s : List Char) : List (List Char) :=
  let n := (s.takeWhile isPySpace).length
  (List.range (n + 1)).map (fun i => s.drop (n - i))

/-- `\s*[:\t]\s*` then capture and terminator, with backtracking. -/
def sepCap (s : List Char) : Option (List Char × List Char) :=
  firstSome
    (fun s1 =>
      match s1 with
      | [] => none
      | c :: r1 =>
        if c = ':' ∨ c = '\t' then firstSome lazyCap (wsSplits r1) else none)
    (wsSplits s)

/-- Attempt the whole pattern (minus `\b`) at the current position;
returns the captured group and the remainder after the match. -/
def tryMatchHere (label : List Char) (s : List Char) : Option (List Char × List Char) :=
  match matchLabelCI label s with
  | none => none
  | some rest => sepCap rest

/-- `re.finditer` scan: leftmost matches, resuming after each match end.
`bok` records whether `\b` holds at the current position (the labels all
start with a word character, so `\b` holds iff the previous character is
not a word character, or we are at the start / just after a match, whose
last consumed character is `\n` or `<`). -/
def scanGroups (label : List Char) : Bool → List Char → Nat → List (List Char)
  | _, _, 0 => []
  | _, [], _ => []
  | bok, c :: rest, fuel + 1 =>
    if bok then
      match tryMatchHere label (c :: rest) with
      | some (g, after) => g :: scanGroups label true after fuel
      | none => scanGroups label (!isWordChar c) rest fuel
    else scanGroups label (!isWordChar c) rest fuel

/-- The captured groups of all matches of the pattern for `label`. -/
def findGroups (label : String) (ps : List Char) : List (List Char) :=
  scanGroups label.data true ps (ps.length + 1)

def stripTagsGo : Nat → List Char → List Char
  | 0, s => s
  | _ + 1, [] => []
  | fuel + 1, c :: rest =>
    if c = '<' then
      match rest.dropWhile (fun d => d != '>') with
      | '>' :: after =>
        if (rest.takeWhile (fun d => d != '>')).isEmpty then c :: stripTagsGo fuel rest
        else stripTagsGo fuel after
      | _ => c :: stripTagsGo fuel rest
    else c :: stripTagsGo fuel rest

/-- `re.sub(r'<[^>]+>', '', s)`. -/
def stripTags (s : List Char) : List Char := stripTagsGo (s.length + 1) s

/-- Clean one captured group (`extract_details` lines 802-804):
strip, remove markup tags and strip, keep the part before the first tab
and strip. -/
def cleanVal (g : List Char) : List Char :=
  let v1 := pyStrip g
  let v2 := pyStrip (stripTags v1)
  pyStrip (v2.takeWhile (fun d => d != '\t'))

/-- First occurrence whose cleaned value is non-empty (the inner `for m
in matches` loop with its `break`). -/
def firstClean : List (List Char) → List Char
  | [] => []
  | g :: gs => if (cleanVal g).isEmpty then firstClean gs else cleanVal g

/-- The value a single label variant yields on the page text. -/
def try_variant (label : String) (ps : List Char) : List Char :=
  firstClean (findGroups label ps)

/-- The outer `for field_variant in search_fields` loop with its
`if value: break`: first variant with a non-empty value wins. -/
def extract_field (ps : List Char) : List String → List Char
  | [] => []
  | v :: rest =>
    if (try_variant v ps).isEmpty then extract_field ps rest else try_variant v ps

/-- The `field_mappings` table of `extract_details` (lines 769-791). -/
def field_mappings : List (String × List String) := [
  ("Title", ["Title", "Title_t"]),
  ("Subtitle", ["Subtitle", "Subtitle_t"]),
  ("Author", ["Author", "Author_t"]),
  ("PublicationTitle", ["PublicationTitle", "PublicationTitle_t"]),
  ("DOI", ["DOI", "DOI_t"]),
  ("ISBN", ["ISBN", "ISBN_t"]),
  ("EISBN", ["EISBN", "EISBN_t"]),
  ("ISSN", ["ISSN", "ISSN_t"]),
  ("EISSN", ["EISSN", "EISSN_t"]),
  ("Volume", ["Volume", "Volume_t"]),
  ("Issue", ["Issue", "Issue_t"]),
  ("StartPage", ["StartPage", "StartPage_t"]),
  ("EndPage", ["EndPage", "EndPage_t"]),
  ("PublicationDateText", ["PublicationDateText", "PublicationDate_t"]),
  ("PublicationDateYear", ["PublicationDateYear_s", "PublicationYear"]),
  ("IsOpenAccess", ["IsOpenAccess", "IsOpenAccess_b"]),
  ("LanguageEffective", ["LanguageEffective", "LanguageEffective_s"]),
  ("Language_s", ["Language_s", "Language"]),
  ("ContentType", ["ContentType", "ContentType_t", "ContentType_s110"]),
  ("SSID", ["SSID", "SSID_t"]),
  ("URI", ["URI", "URI_t", "URI_s"])]

/-- `extract_details(record_id, page_source)` as a record: the key
insertion order of the Python dict is `Record_ID` first, then the
canonical fields in `field_mappings` order.  `ps` is the entity-decoded
page text. -/
def extract_details (record_id : String) (ps : List Char) : List (String × List Char) :=
  ("Record_ID", record_id.data) ::
    field_mappings.map (fun fm => (fm.1, extract_field ps fm.2))

/-- First-match association-list lookup (Python dict read). -/
def alookup {κ ν : Type} [DecidableEq κ] (k : κ) : List (κ × ν) → Option ν
  | [] => none
  | p :: rest => if p.1 = k then some p.2 else alookup k rest

/-- Python dict assignment `d[k] = v`: an existing key keeps its
position and gets the new value, a new key is appended. -/
def dictInsert {κ ν : Type} [DecidableEq κ] (m : List (κ × ν)) (k : κ) (v : ν) :
    List (κ × ν) :=
  if m.any (fun p => decide (p.1 = k)) then
    m.map (fun p => if p.1 = k then (k, v) else p)
  else m ++ [(k, v)]

/-- The caller side of extraction (`extract_single_id` lines 748-749):
`data['Record_ID'] = record_id; data['Search_ID'] = search_id`. -/
def stamp_record (record_id search_id : String) (d : List (String × List Char)) :
    List (String × List Char) :=
  dictInsert (dictInsert d "Record_ID" record_id.data) "Search_ID" search_id.data

/-- `extract_data_multiple` (lines 594-610), with retrieval abstracted as
`fetch`: accumulates `all_participants` and the dict
`search_id_groups[search_id] = participants` (the code assigns the group
in both the empty and the non-empty branch, and `extend` of an empty
list is a no-op). -/
def extract_data_multiple {α : Type} (fetch : String → List α) (search_ids : List String) :
    List α × List (String × List α) :=
  search_ids.foldl
    (fun acc search_id =>
      (acc.1 ++ fetch search_id, dictInsert acc.2 search_id (fetch search_id)))
    ([], [])

/-- The `normalize` helper of `values_match` (lines 940-945): strip,
lowercase, collapse internal whitespace runs to single spaces. -/
def normalize (v : List Char) : List Char := joinSpace (pySplit (pyLower (pyStrip v)))

/-- The `non_empty` list of `values_match` (line 947): values that are
non-empty and not whitespace-only, normalized. -/
def normalized_nonempty (values : List (List Char)) : List (List Char) :=
  (values.filter (fun v => !v.isEmpty && !(pyStrip v).isEmpty)).map normalize

/-- `values_match` (lines 938-955). -/
def values_match (values : List (List Char)) : Bool :=
  match normalized_nonempty values with
  | [] => true
  | first :: rest => (first :: rest).all (fun v => v == first)

/-- The classification cell of `populate_comparison_table`
(lines 893-906): URI is exempt, then all-empty means no data, then
`values_match` decides match vs mismatch. -/
def match_mark (field : List Char) (values : List (List Char)) : List Char :=
  if field = "URI".data then []
  else if values.all (fun v => v.isEmpty || (pyStrip v).isEmpty) then "ℹ️ No data".data
  else if values_match values then "✅ Match".data
  else "❌ Mismatch".data

/-- The classification cell of `export_comparison_excel`
(lines 1141-1153), same rule with shorter markers. -/
def excel_match_cell (field : List Char) (values : List (List Char)) : List Char :=
  if field = "URI".data then []
  else if values.all (fun v => v.isEmpty || (pyStrip v).isEmpty) then "ℹ️ No data".data
  else if values_match values then "✅".data
  else "❌".data

/-- An extracted record as a Python dict. -/
abbrev Rec := List (String × List Char)

def recGet (r : Rec) (k : String) : Option (List Char) := alookup k r

/-- The `value_map` of one field row (`populate_comparison_table`
lines 885-889 and `export_comparison_excel` lines 1124-1127): iterate
all extracted records in extraction order, keying by
`rec.get('Record_ID')`, value `(rec.get(field) or "").strip()`. -/
def build_value_map (recs : List Rec) (field : String) :
    List (Option (List Char) × List Char) :=
  recs.foldl
    (fun m r => dictInsert m (recGet r "Record_ID") (pyStrip ((recGet r field).getD [])))
    []

/-- One matrix cell: `value_map.get(pid, "")`. -/
def cellValue (recs : List Rec) (field : String) (pid : List Char) : List Char :=
  (alookup (some pid) (build_value_map recs field)).getD []

/-- `values = [value_map.get(pid, "") for pid in participant_ids]`
(line 891 and line 1129). -/
def row_values (recs : List Rec) (field : String) (pids : List (List Char)) :
    List (List Char) :=
  pids.map (fun pid => cellValue recs field pid)

/-- The spec's worked extraction example text. -/
def exampleText : String := "ISBN: 978-0-13-468599-1\nISBN_t:999"

/-- Concrete retrieval function for the group-partition witness: query
"A" yields one record, any other query yields none. -/
def c7fetch : String → List Nat := fun i => if i = "A" then [0] else []

/-- Two records sharing a record identifier, for the value-map claim. -/
def c10recOld : Rec := [("Record_ID", "p1".data), ("Title", "old".data)]

def c10recNew : Rec := [("Record_ID", "p1".data), ("Title", " new ".data)]

/-! ### Helper lemmas -/

theorem isEmpty_false_of_ne {α : Type} {l : List α} (h : l ≠ []) : l.isEmpty = false := by
  cases l with
  | nil => exact absurd rfl h
  | cons a t => rfl

theorem firstClean_spec (g : List Char) (gs2 : List (List Char)) (hg : cleanVal g ≠ []) :
    ∀ gs1 : List (List Char), (∀ g2 ∈ gs1, cleanVal g2 = []) →
      firstClean (gs1 ++ g :: gs2) = cleanVal g
  | [], _ => by
    simp only [List.nil_append, firstClean]
    rw [isEmpty_false_of_ne hg]
    simp
  | a :: rest, hgs1 => by
    have ha : cleanVal a = [] := hgs1 a (List.mem_cons_self a rest)
    simp only [List.cons_append, firstClean, ha, List.isEmpty_nil, if_true]
    exact firstClean_spec g gs2 hg rest (fun g2 h => hgs1 g2 (List.mem_cons_of_mem a h))

theorem extract_field_all_empty (ps : List Char) :
    ∀ vs : List String, (∀ w ∈ vs, try_variant w ps = []) → extract_field ps vs = []
  | [], _ => rfl
  | w :: rest, hall => by
    have hw : try_variant w ps = [] := hall w (List.mem_cons_self w rest)
    simp only [extract_field, hw, List.isEmpty_nil, if_true]
    exact extract_field_all_empty ps rest (fun w2 h => hall w2 (List.mem_cons_of_mem w h))

theorem alookup_map_fields (ps : List Char) (l : List (String × List String)) :
    ∀ (f : String) (vs : List String),
      (f, vs) ∈ l → (l.map Prod.fst).Nodup →
      alookup f (l.map (fun fm => (fm.1, extract_field ps fm.2))) =
        some (extract_field ps vs) := by
  induction l with
  | nil =>
    intro f vs hmem _
    exact absurd hmem (List.not_mem_nil _)
  | cons p rest ih =>
    intro f vs hmem hnd
    rcases List.mem_cons.mp hmem with heq | htail
    · subst heq
      simp [alookup]
    · have hf : f ∈ rest.map Prod.fst := List.mem_map.mpr ⟨(f, vs), htail, rfl⟩
      simp only [List.map_cons] at hnd
      rcases List.nodup_cons.mp hnd with ⟨hp, hrest⟩
      have hne : ¬ p.1 = f := fun h => hp (h ▸ hf)
      simp only [List.map_cons, alookup, if_neg hne]
      exact ih f vs htail hrest

/-! ### Claim theorems -/

/-- C1: for every raw text the Field Extractor tries the label variants
in their listed order and returns the (cleaned) value of the first
occurrence of the first variant that yields a non-empty result; later
variants (`post`) and later occurrences of the same variant (`gs2`) are
never consulted once a value is found. -/
theorem extract_first_variant_occurrence_wins (ps : List Char) (post : List String)
    (v : String) (gs1 gs2 : List (List Char)) (g : List Char)
    (hsplit : findGroups v ps = gs1 ++ g :: gs2)
    (hgs1 : ∀ g2 ∈ gs1, cleanVal g2 = [])
    (hg : cleanVal g ≠ []) :
    ∀ pre : List String, (∀ w ∈ pre, try_variant w ps = []) →
      extract_field ps (pre ++ v :: post) = cleanVal g
  | [], _ => by
    have hv : try_variant v ps = cleanVal g := by
      unfold try_variant
      rw [hsplit]
      exact firstClean_spec g gs2 hg gs1 hgs1
    simp only [List.nil_append, extract_field, hv]
    rw [isEmpty_false_of_ne hg]
    simp
  | w :: rest, hpre => by
    have hw : try_variant w ps = [] := hpre w (List.mem_cons_self w rest)
    simp only [List.cons_append, extract_field, hw, List.isEmpty_nil, if_true]
    exact extract_first_variant_occurrence_wins ps post v gs1 gs2 g hsplit hgs1 hg rest
      (fun w2 h => hpre w2 (List.mem_cons_of_mem w h))

/-- Witness for C1, at the spec's worked example: text
`"ISBN: 978-0-13-468599-1\nISBN_t:999"`, field `ISBN` with variants
`[ISBN, ISBN_t]`, yields `"978-0-13-468599-1"`. -/
theorem extract_first_variant_occurrence_wins_witness :
    extract_field exampleText.data ([] ++ "ISBN" :: ["ISBN_t"]) = "978-0-13-468599-1".data :=
  (extract_first_variant_occurrence_wins exampleText.data ["ISBN_t"] "ISBN" [] []
    "978-0-13-468599-1".data (by decide) (by simp) (by decide) [] (by simp)).trans (by decide)

/-- C8: field extraction is total — for every record identifier and
every (entity-decoded) page text, each canonical field is present in the
output and carries some string value, and when no variant yields a
non-empty value the field's value is the empty string. -/
theorem extract_total_safe (record_id : String) (ps : List Char) (f : String)
    (vs : List String) (hmem : (f, vs) ∈ field_mappings) :
    alookup f (extract_details record_id ps) = some (extract_field ps vs) ∧
      ((∀ w ∈ vs, try_variant w ps = []) → extract_field ps vs = []) := by
  constructor
  · have hf : f ∈ field_mappings.map Prod.fst := List.mem_map.mpr ⟨(f, vs), hmem, rfl⟩
    have hrid : ¬ "Record_ID" ∈ field_mappings.map Prod.fst := by decide
    have hne : ¬ (("Record_ID" : String) = f) := fun h => hrid (h ▸ hf)
    unfold extract_details
    simp only [alookup]
    rw [if_neg hne]
    exact alookup_map_fields ps field_mappings f vs hmem (by decide)
  · exact extract_field_all_empty ps vs

/-- Witness for C8 at empty page text and the `Title` field: the field
is present and its value is the empty string. -/
theorem extract_total_safe_witness :
    alookup "Title" (extract_details "r" ([] : List Char)) = some [] := by
  have h := extract_total_safe "r" ([] : List Char) "Title" ["Title", "Title_t"] (by decide)
  rw [h.1, h.2 (by decide)]

/-- C9 counterexample: the claim's count of 19 canonical fields is
wrong — a fully stamped record has 23 keys (21 canonical fields plus
`Record_ID` and `Search_ID`), not 19 + 2. -/
theorem record_keys_count_counterexample :
    ((stamp_record "r" "q" (extract_details "r" [])).map Prod.fst).length = 23 ∧
    ¬ ((stamp_record "r" "q" (extract_details "r" [])).map Prod.fst).length = 19 + 2 := by
  decide

/-- C9 (amended): every extracted-and-stamped record maps exactly the
fixed enumerated set of 21 canonical field names, plus the two reserved
fields `Record_ID` and `Search_ID`, to string values: the key list is
always this fixed duplicate-free list, independent of the page text. -/
theorem record_keys_exact (record_id search_id : String) (ps : List Char) :
    (stamp_record record_id search_id (extract_details record_id ps)).map Prod.fst =
      ["Record_ID", "Title", "Subtitle", "Author", "PublicationTitle", "DOI", "ISBN",
       "EISBN", "ISSN", "EISSN", "Volume", "Issue", "StartPage", "EndPage",
       "PublicationDateText", "PublicationDateYear", "IsOpenAccess", "LanguageEffective",
       "Language_s", "ContentType", "SSID", "URI", "Search_ID"] ∧
    (["Record_ID", "Title", "Subtitle", "Author", "PublicationTitle", "DOI", "ISBN",
      "EISBN", "ISSN", "EISSN", "Volume", "Issue", "StartPage", "EndPage",
      "PublicationDateText", "PublicationDateYear", "IsOpenAccess", "LanguageEffective",
      "Language_s", "ContentType", "SSID", "URI", "Search_ID"] : List String).Nodup :=
  ⟨rfl, by decide⟩

/-- C5: the URI field row is never classified match, mismatch or
no-data: for any values it is rendered with an empty classification,
both in the displayed table and in the Excel export. -/
theorem uri_exempt (values : List (List Char)) :
    match_mark "URI".data values = [] ∧ excel_match_cell "URI".data values = [] := by
  constructor
  · unfold match_mark
    rw [if_pos rfl]
  · unfold excel_match_cell
    rw [if_pos rfl]

theorem values_match_iff (values : List (List Char)) :
    values_match values = true ↔
      ∀ a ∈ normalized_nonempty values, ∀ b ∈ normalized_nonempty values, a = b := by
  unfold values_match
  rcases h : normalized_nonempty values with _ | ⟨f, rest⟩
  · simp
  · rw [List.all_eq_true]
    constructor
    · intro hall a ha b hb
      have ha2 := hall a ha
      have hb2 := hall b hb
      rw [beq_iff_eq] at ha2 hb2
      rw [ha2, hb2]
    · intro hu x hx
      rw [beq_iff_eq]
      exact hu x hx f (List.mem_cons_self f rest)

theorem perm_all_eq {α : Type} (f : α → Bool) {l1 l2 : List α} (h : l1.Perm l2) :
    l1.all f = l2.all f := by
  induction h with
  | nil => rfl
  | cons a h ih => simp only [List.all_cons, ih]
  | swap a b l => simp only [List.all_cons, ← Bool.and_assoc, Bool.and_comm (f a) (f b)]
  | trans h1 h2 ih1 ih2 => rw [ih1, ih2]

theorem values_match_perm {l1 l2 : List (List Char)} (h : l1.Perm l2) :
    values_match l1 = values_match l2 := by
  have hp : (normalized_nonempty l1).Perm (normalized_nonempty l2) := (h.filter _).map _
  rw [Bool.eq_iff_iff, values_match_iff, values_match_iff]
  constructor <;> intro hu a ha b hb
  · exact hu a (hp.mem_iff.mpr ha) b (hp.mem_iff.mpr hb)
  · exact hu a (hp.mem_iff.mp ha) b (hp.mem_iff.mp hb)

/-- C6: the classification of a field row is invariant under any
permutation of the row's values across columns. -/
theorem classification_perm_invariant (field : List Char)
    (values1 values2 : List (List Char)) (h : values1.Perm values2) :
    match_mark field values1 = match_mark field values2 := by
  unfold match_mark
  rw [perm_all_eq _ h, values_match_perm h]

/-- Witness for C6: swapping the two values of a row leaves the
classification unchanged. -/
theorem classification_perm_invariant_witness :
    match_mark "Title".data ["b".data, "a".data] =
      match_mark "Title".data ["a".data, "b".data] :=
  classification_perm_invariant "Title".data ["b".data, "a".data] ["a".data, "b".data]
    (List.Perm.swap "a".data "b".data [])

/-- C2 counterexample: the claim's "zero or one distinct normalized
non-empty values implies match" fails in the zero case — a row whose
only column is empty is classified no-data, not match. -/
theorem match_rule_all_empty_counterexample :
    match_mark "Title".data [[]] = "ℹ️ No data".data ∧
    ¬ match_mark "Title".data [[]] = "✅ Match".data := by
  decide

/-- C2 (amended): for every non-URI field row with at least one column
whose value is not empty or whitespace-only, if all normalized non-empty
values coincide (at most one distinct value — in particular when the
field is present in only one record), the classification is match, never
mismatch.  A row whose columns are all empty is no-data instead. -/
theorem match_rule_amended (field : List Char) (values : List (List Char))
    (hfield : field ≠ "URI".data)
    (hne : ∃ v ∈ values, pyStrip v ≠ [])
    (huniq : ∀ a ∈ normalized_nonempty values, ∀ b ∈ normalized_nonempty values, a = b) :
    match_mark field values = "✅ Match".data := by
  unfold match_mark
  rw [if_neg hfield]
  have hae : values.all (fun v => v.isEmpty || (pyStrip v).isEmpty) = false := by
    cases hb : values.all (fun v => v.isEmpty || (pyStrip v).isEmpty) with
    | false => rfl
    | true =>
      rw [List.all_eq_true] at hb
      rcases hne with ⟨v, hv, hvne⟩
      have hv0 : v ≠ [] := fun h => hvne (by rw [h]; rfl)
      have := hb v hv
      rw [isEmpty_false_of_ne hv0, isEmpty_false_of_ne hvne] at this
      exact absurd this (by simp)
  rw [hae]
  simp only [Bool.false_eq_true, if_false]
  rw [if_pos ((values_match_iff values).mpr huniq)]

/-- Witness for C2 (amended): a single non-empty column classifies as
match. -/
theorem match_rule_amended_witness :
    match_mark "Title".data ["abc".data] = "✅ Match".data :=
  match_rule_amended "Title".data ["abc".data] (by decide)
    ⟨"abc".data, by simp, by decide⟩ (by decide)

/-- C3: for every non-URI field row, two or more distinct normalized
non-empty values classify the row as mismatch. -/
theorem mismatch_rule (field : List Char) (values : List (List Char))
    (hfield : field ≠ "URI".data)
    (hab : ∃ a ∈ normalized_nonempty values, ∃ b ∈ normalized_nonempty values, a ≠ b) :
    match_mark field values = "❌ Mismatch".data := by
  rcases hab with ⟨a, ha, b, hb, hne⟩
  unfold match_mark
  rw [if_neg hfield]
  have hae : values.all (fun v => v.isEmpty || (pyStrip v).isEmpty) = false := by
    cases hbool : values.all (fun v => v.isEmpty || (pyStrip v).isEmpty) with
    | false => rfl
    | true =>
      rw [List.all_eq_true] at hbool
      rcases List.mem_map.mp ha with ⟨v, hvf, _⟩
      rcases List.mem_filter.mp hvf with ⟨hv, hcond⟩
      rcases Bool.and_eq_true_iff.mp hcond with ⟨h1, h2⟩
      have := hbool v hv
      rw [Bool.not_eq_true'] at h1 h2
      rw [h1, h2] at this
      exact absurd this (by simp)
  rw [hae]
  simp only [Bool.false_eq_true, if_false]
  have hvm : values_match values = false := by
    cases hv : values_match values with
    | false => rfl
    | true => exact absurd ((values_match_iff values).mp hv a ha b hb) hne
  rw [hvm]
  simp

/-- Witness for C3: the spec's example — Title values `"Foo"` and
`"Bar"` give a mismatch. -/
theorem mismatch_rule_witness :
    match_mark "Title".data ["Foo".data, "Bar".data] = "❌ Mismatch".data :=
  mismatch_rule "Title".data ["Foo".data, "Bar".data] (by decide)
    ⟨"foo".data, by decide, "bar".data, by decide, by decide⟩

/-- C4: for every non-URI field row, if every column's raw value is
empty or whitespace-only the row is classified no-data, whose display
marker differs from both the match and the mismatch markers. -/
theorem nodata_rule (field : List Char) (values : List (List Char))
    (hfield : field ≠ "URI".data)
    (hall : ∀ v ∈ values, pyStrip v = []) :
    match_mark field values = "ℹ️ No data".data ∧
    ¬ "ℹ️ No data".data = "✅ Match".data ∧
    ¬ "ℹ️ No data".data = "❌ Mismatch".data := by
  refine ⟨?_, by decide, by decide⟩
  have h1 : values.all (fun v => v.isEmpty || (pyStrip v).isEmpty) = true := by
    rw [List.all_eq_true]
    intro v hv
    rw [hall v hv]
    simp
  unfold match_mark
  rw [if_neg hfield, if_pos h1]

/-- Witness for C4: one whitespace-only column yields no-data. -/
theorem nodata_rule_witness :
    match_mark "Title".data [" ".data] = "ℹ️ No data".data :=
  (nodata_rule "Title".data [" ".data] (by decide) (by decide)).1

theorem any_key_eq_false {κ ν : Type} [DecidableEq κ] {m : List (κ × ν)} {k : κ}
    (h : ∀ p ∈ m, p.1 ≠ k) : m.any (fun p => decide (p.1 = k)) = false := by
  cases hb : m.any (fun p => decide (p.1 = k)) with
  | false => rfl
  | true =>
    rcases List.any_eq_true.mp hb with ⟨p, hp, hdec⟩
    exact absurd (of_decide_eq_true hdec) (h p hp)

theorem dictInsert_not_mem {κ ν : Type} [DecidableEq κ] {m : List (κ × ν)} {k : κ} (v : ν)
    (h : ∀ p ∈ m, p.1 ≠ k) : dictInsert m k v = m ++ [(k, v)] := by
  unfold dictInsert
  rw [any_key_eq_false h]
  simp

theorem edm_foldl {α : Type} (fetch : String → List α) :
    ∀ (ids : List String) (acc1 : List α) (acc2 : List (String × List α)),
      ids.Nodup → (∀ i ∈ ids, ∀ p ∈ acc2, p.1 ≠ i) →
      ids.foldl
        (fun acc search_id =>
          (acc.1 ++ fetch search_id, dictInsert acc.2 search_id (fetch search_id)))
        (acc1, acc2) =
        (acc1 ++ (ids.map fetch).flatten, acc2 ++ ids.map (fun i => (i, fetch i)))
  | [], acc1, acc2, _, _ => by simp
  | i :: ids, acc1, acc2, hnd, hfresh => by
    rcases List.nodup_cons.mp hnd with ⟨hi, hnd2⟩
    have hins : dictInsert acc2 i (fetch i) = acc2 ++ [(i, fetch i)] :=
      dictInsert_not_mem (fetch i) (fun p hp => hfresh i (List.mem_cons_self i ids) p hp)
    have hfresh2 : ∀ j ∈ ids, ∀ p ∈ acc2 ++ [(i, fetch i)], p.1 ≠ j := by
      intro j hj p hp
      rcases List.mem_append.mp hp with hpa | hpb
      · exact hfresh j (List.mem_cons_of_mem i hj) p hpa
      · have hpe : p = (i, fetch i) := List.mem_singleton.mp hpb
        rw [hpe]
        intro h
        exact hi ((show i = j from h).symm ▸ hj)
    simp only [List.foldl_cons]
    rw [hins, edm_foldl fetch ids (acc1 ++ fetch i) (acc2 ++ [(i, fetch i)]) hnd2 hfresh2]
    simp [List.append_assoc]

/-- C7 counterexample: with a duplicated query identifier the group dict
overwrites the earlier group, so for identifiers `["A", "A"]` each
yielding one record the run extracts 2 records but produces only 1
group (not one group per entered identifier), and the sum of group
sizes (1) differs from the number of extracted records (2). -/
theorem groups_duplicate_ids_counterexample :
    (extract_data_multiple (fun _ => [(0 : Nat)]) ["A", "A"]).1.length = 2 ∧
    (extract_data_multiple (fun _ => [(0 : Nat)]) ["A", "A"]).2.length = 1 ∧
    ¬ (extract_data_multiple (fun _ => [(0 : Nat)]) ["A", "A"]).2.length =
        (["A", "A"] : List String).length ∧
    ¬ ((extract_data_multiple (fun _ => [(0 : Nat)]) ["A", "A"]).2.map
          (fun gp => gp.2.length)).sum =
        (extract_data_multiple (fun _ => [(0 : Nat)]) ["A", "A"]).1.length := by
  decide

/-- C7 (amended): when the entered query identifiers are pairwise
distinct, the groups are exactly one per identifier in entry order (a
query yielding zero records still appears as an empty group at its
ordinal position), the extracted records are exactly the concatenation
of the groups' records, and the sum of group sizes equals the total
number of extracted records. -/
theorem groups_partition_nodup {α : Type} (fetch : String → List α) (ids : List String)
    (h : ids.Nodup) :
    (extract_data_multiple fetch ids).2 = ids.map (fun i => (i, fetch i)) ∧
    (extract_data_multiple fetch ids).1 = (ids.map fetch).flatten ∧
    ((extract_data_multiple fetch ids).2.map (fun gp => gp.2.length)).sum =
      (extract_data_multiple fetch ids).1.length := by
  have he := edm_foldl fetch ids [] [] h
    (by intro i _ p hp; exact absurd hp (List.not_mem_nil p))
  unfold extract_data_multiple
  rw [he]
  simp only [List.nil_append]
  refine ⟨trivial, trivial, ?_⟩
  rw [List.map_map, List.length_flatten, List.map_map]
  rfl

/-- Witness for C7 (amended): queries `["A", "B"]` where `A` yields one
record and `B` none produce one group per query, `B`'s group empty at
its position. -/
theorem groups_partition_nodup_witness :
    (["A", "B"] : List String).Nodup ∧
    (extract_data_multiple c7fetch ["A", "B"]).2 = [("A", [0]), ("B", [])] ∧
    (extract_data_multiple c7fetch ["A", "B"]).1 = [0] := by
  refine ⟨by decide, ?_, ?_⟩
  · exact ((groups_partition_nodup c7fetch ["A", "B"] (by decide)).1).trans (by decide)
  · exact ((groups_partition_nodup c7fetch ["A", "B"] (by decide)).2.1).trans (by decide)

theorem alookup_none_of_no_key {κ ν : Type} [DecidableEq κ] (k : κ) :
    ∀ m : List (κ × ν), (∀ p ∈ m, p.1 ≠ k) → alookup k m = none
  | [], _ => rfl
  | p :: rest, h => by
    simp only [alookup, if_neg (h p (List.mem_cons_self p rest))]
    exact alookup_none_of_no_key k rest (fun q hq => h q (List.mem_cons_of_mem p hq))

theorem alookup_append_left_none {κ ν : Type} [DecidableEq κ] (k : κ) (l : List (κ × ν)) :
    ∀ m : List (κ × ν), alookup k m = none → alookup k (m ++ l) = alookup k l
  | [], _ => rfl
  | p :: rest, h => by
    by_cases hp : p.1 = k
    · exact absurd h (by simp [alookup, if_pos hp])
    · have h2 : alookup k rest = none := by simpa [alookup, if_neg hp] using h
      simpa [alookup, if_neg hp] using alookup_append_left_none k l rest h2

theorem alookup_map_update_self {κ ν : Type} [DecidableEq κ] (k : κ) (v : ν) :
    ∀ m : List (κ × ν), m.any (fun p => decide (p.1 = k)) = true →
      alookup k (m.map (fun p => if p.1 = k then (k, v) else p)) = some v
  | [], h => by simp at h
  | p :: rest, h => by
    by_cases hp : p.1 = k
    · simp [List.map_cons, if_pos hp, alookup]
    · have h2 : rest.any (fun p => decide (p.1 = k)) = true := by
        rcases List.any_eq_true.mp h with ⟨q, hq, hdec⟩
        rcases List.mem_cons.mp hq with heq | htail
        · exact absurd (of_decide_eq_true (heq ▸ hdec)) hp
        · exact List.any_eq_true.mpr ⟨q, htail, hdec⟩
      simp only [List.map_cons, if_neg hp, alookup, if_neg hp]
      exact alookup_map_update_self k v rest h2

theorem alookup_map_update_ne {κ ν : Type} [DecidableEq κ] (k k' : κ) (v : ν)
    (hne : k' ≠ k) :
    ∀ m : List (κ × ν),
      alookup k' (m.map (fun p => if p.1 = k then (k, v) else p)) = alookup k' m
  | [] => rfl
  | p :: rest => by
    by_cases hp : p.1 = k
    · simp only [List.map_cons, if_pos hp, alookup]
      rw [if_neg (fun h => hne (Eq.symm h)), if_neg (fun h => hne (Eq.trans (Eq.symm h) hp))]
      exact alookup_map_update_ne k k' v hne rest
    · simp only [List.map_cons, if_neg hp, alookup]
      by_cases hk : p.1 = k'
      · rw [if_pos hk, if_pos hk]
      · rw [if_neg hk, if_neg hk]
        exact alookup_map_update_ne k k' v hne rest

theorem alookup_append_singleton_ne {κ ν : Type} [DecidableEq κ] (k k' : κ) (v : ν)
    (hne : k' ≠ k) : ∀ m : List (κ × ν), alookup k' (m ++ [(k, v)]) = alookup k' m
  | [] => by
    show alookup k' [(k, v)] = none
    simp only [alookup]
    rw [if_neg (fun h => hne (Eq.symm h))]
  | p :: rest => by
    simp only [List.cons_append, alookup]
    by_cases hp : p.1 = k'
    · rw [if_pos hp, if_pos hp]
    · rw [if_neg hp, if_neg hp]
      exact alookup_append_singleton_ne k k' v hne rest

theorem alookup_dictInsert_self {κ ν : Type} [DecidableEq κ] (m : List (κ × ν)) (k : κ)
    (v : ν) : alookup k (dictInsert m k v) = some v := by
  unfold dictInsert
  cases hany : m.any (fun p => decide (p.1 = k)) with
  | true =>
    rw [if_pos rfl]
    exact alookup_map_update_self k v m hany
  | false =>
    rw [if_neg (by simp)]
    have hnone : alookup k m = none := by
      apply alookup_none_of_no_key
      intro p hp hpk
      have hx : m.any (fun p => decide (p.1 = k)) = true :=
        List.any_eq_true.mpr ⟨p, hp, decide_eq_true hpk⟩
      rw [hany] at hx
      exact absurd hx (by simp)
    rw [alookup_append_left_none k [(k, v)] m hnone]
    simp [alookup]

theorem alookup_dictInsert_ne {κ ν : Type} [DecidableEq κ] (m : List (κ × ν)) (k k' : κ)
    (v : ν) (hne : k' ≠ k) : alookup k' (dictInsert m k v) = alookup k' m := by
  unfold dictInsert
  cases hany : m.any (fun p => decide (p.1 = k)) with
  | true =>
    rw [if_pos rfl]
    exact alookup_map_update_ne k k' v hne m
  | false =>
    rw [if_neg (by simp)]
    exact alookup_append_singleton_ne k k' v hne m

theorem bvm_skip (field : String) (pid : List Char) :
    ∀ (ys : List Rec) (m : List (Option (List Char) × List Char)),
      (∀ r ∈ ys, recGet r "Record_ID" ≠ some pid) →
      alookup (some pid)
        (ys.foldl (fun m r =>
          dictInsert m (recGet r "Record_ID") (pyStrip ((recGet r field).getD []))) m) =
        alookup (some pid) m
  | [], _, _ => rfl
  | r :: ys, m, h => by
    simp only [List.foldl_cons]
    rw [bvm_skip field pid ys _ (fun r2 h2 => h r2 (List.mem_cons_of_mem r h2))]
    exact alookup_dictInsert_ne m (recGet r "Record_ID") (some pid) _
      (fun heq => h r (List.mem_cons_self r ys) (Eq.symm heq))

theorem map_congr_mem {α β : Type} (f g : α → β) :
    ∀ l : List α, (∀ x ∈ l, f x = g x) → l.map f = l.map g
  | [], _ => rfl
  | a :: rest, h => by
    simp only [List.map_cons]
    rw [h a (List.mem_cons_self a rest),
      map_congr_mem f g rest (fun x hx => h x (List.mem_cons_of_mem a hx))]

/-- C10: matrix cells are looked up solely by record identifier in a map
built by iterating all extracted records in extraction order, so when a
record `r` is the last one in extraction order bearing identifier `pid`,
every column bearing `pid` displays `r`'s (stripped) value for the
field, whatever earlier records (`xs`) contained. -/
theorem value_map_last_wins (xs ys : List Rec) (r : Rec) (field : String)
    (pid : List Char) (pids : List (List Char))
    (hid : recGet r "Record_ID" = some pid)
    (hys : ∀ r2 ∈ ys, recGet r2 "Record_ID" ≠ some pid) :
    cellValue (xs ++ r :: ys) field pid = pyStrip ((recGet r field).getD []) ∧
    row_values (xs ++ r :: ys) field pids =
      pids.map (fun p =>
        if p = pid then pyStrip ((recGet r field).getD [])
        else cellValue (xs ++ r :: ys) field p) := by
  have hcell : cellValue (xs ++ r :: ys) field pid = pyStrip ((recGet r field).getD []) := by
    unfold cellValue build_value_map
    rw [List.foldl_append]
    simp only [List.foldl_cons]
    rw [bvm_skip field pid ys _ hys, hid, alookup_dictInsert_self]
    rfl
  refine ⟨hcell, ?_⟩
  unfold row_values
  apply map_congr_mem
  intro p hp
  by_cases hpp : p = pid
  · rw [if_pos hpp, hpp]
    exact hcell
  · rw [if_neg hpp]

/-- Witness for C10: two records share identifier `p1`; the single `p1`
column shows the later record's (stripped) Title value `new`. -/
theorem value_map_last_wins_witness :
    row_values ([c10recOld] ++ c10recNew :: []) "Title" ["p1".data] = ["new".data] := by
  have h := value_map_last_wins [c10recOld] [] c10recNew "Title" "p1".data ["p1".data]
    rfl (by simp)
  exact h.2.trans (by decide)

end Extractor
